import Mathlib

/-!
Verification of the tool catalog and tool dispatcher of `src/server.py`
(an MCP file server).  The file system is modelled as a finite association
list from absolute, canonical component lists to entries (regular files
with UTF-8 text content, or directories), together with a current working
directory and a logical clock supplying modification times.  Python
`pathlib.Path` parsing (which drops empty and "." components and trailing
separators before any OS call is made) is modelled by `splitPath` /
`pathStr`, and OS path walking (including ".." steps, which require the
intermediate components to exist as directories) by `walkResolve`.
Exceptions raised inside `call_tool` are modelled by the `Except` monad;
the `try/except` wrapper of the source corresponds to `dispatch` matching
on the result of `dispatchBody`.  OS error message strings (errno texts)
are modelled by the errno templates used by CPython; file contents are
Lean strings, i.e. always valid UTF-8, and `st_mtime` (a float in Python)
is modelled by the natural-number logical clock.
-/

set_option autoImplicit false

namespace MCPServer

/-- Split a character list on the separator `'/'` (the splitting done by
`s.split("/")`), written as a structural recursion. -/
def splitSlashAux (cur : List Char) : List Char → List String
  | [] => [String.mk cur.reverse]
  | ch :: rest =>
    if ch = '/' then String.mk cur.reverse :: splitSlashAux [] rest
    else splitSlashAux (ch :: cur) rest

/-- Components of a path as parsed by `pathlib.PurePosixPath`: split on the
separator, dropping empty and "." components (".." is kept). -/
def splitPath (s : String) : List String :=
  (splitSlashAux [] s.data).filter (fun c => c != "" && c != ".")

/-- Whether the path string is absolute (starts with the separator). -/
def isAbs (s : String) : Bool :=
  match s.data with
  | '/' :: _ => true
  | _ => false

/-- The root prefix kept by `pathlib` (exactly two leading slashes are
preserved, per POSIX; three or more collapse to one; relative paths have
none). -/
def rootStr (s : String) : String :=
  match s.data with
  | '/' :: '/' :: '/' :: _ => "/"
  | '/' :: '/' :: _ => "//"
  | '/' :: _ => "/"
  | _ => ""

/-- `str(pathlib.Path(s))`: the normalized rendering of a path string.
This is the form every f-string of `call_tool` interpolates, since the
source converts the argument to `Path` before any rendering. -/
def pathStr (s : String) : String :=
  let comps := splitPath s
  let r := rootStr s
  if comps.isEmpty then (if r = "" then "." else r)
  else r ++ String.intercalate "/" comps

/-- A file-system entry: a regular file with text content, or a directory.
`mtime` is a logical modification time. -/
inductive Entry where
  | file (content : String) (mtime : Nat)
  | dir (mtime : Nat)
deriving DecidableEq, Repr

/-- File-system state: entries keyed by absolute canonical component lists
(the key `[]` is the root directory), the current working directory, and a
logical clock used to stamp modification times. -/
structure FS where
  entries : List (List String × Entry)
  cwd : List String
  clock : Nat
deriving DecidableEq, Repr

/-- First-match association-list lookup. -/
def lookupEnt : List (List String × Entry) → List String → Option Entry
  | [], _ => none
  | (q, e) :: rest, p => if q = p then some e else lookupEnt rest p

/-- Remove every binding of a key. -/
def eraseKey (p : List String) : List (List String × Entry) → List (List String × Entry)
  | [] => []
  | (q, e) :: rest => if q = p then eraseKey p rest else (q, e) :: eraseKey p rest

/-- Look up the entry at a canonical absolute path. -/
def FS.find (fs : FS) (p : List String) : Option Entry :=
  lookupEnt fs.entries p

/-- Store an entry at a path (overwriting any previous one) and advance the
clock. -/
def FS.setEntry (fs : FS) (p : List String) (e : Entry) : FS :=
  { fs with entries := (p, e) :: eraseKey p fs.entries, clock := fs.clock + 1 }

/-- Remove the entry at a path (models `os.unlink`). -/
def FS.removeEntry (fs : FS) (p : List String) : FS :=
  { fs with entries := eraseKey p fs.entries }

/-- Whether a canonical path is bound to a directory. -/
def isDirAt (entries : List (List String × Entry)) (p : List String) : Bool :=
  match lookupEnt entries p with
  | some (.dir _) => true
  | _ => false

/-- OS path walk: starting from directory `cur`, consume the parsed
components; every component is entered only through an existing directory
(so `a/../b` fails when `a` is missing or is a file, as `stat` does), and
".." steps to the parent (the parent of the root is the root).  Returns
the canonical path the walk ends at; the final component itself is not
required to exist. -/
def walkResolve (fs : FS) : List String → List String → Option (List String)
  | cur, [] => some cur
  | cur, c :: rest =>
    match fs.find cur with
    | some (.dir _) =>
        walkResolve fs (if c = ".." then cur.dropLast else cur ++ [c]) rest
    | _ => none

/-- The directory an OS call on path string `s` starts walking from. -/
def startDir (fs : FS) (s : String) : List String :=
  if isAbs s then [] else fs.cwd

/-- Resolve a path string to the canonical absolute path its OS walk ends
at, if the walk succeeds. -/
def resolve (fs : FS) (s : String) : Option (List String) :=
  walkResolve fs (startDir fs s) (splitPath s)

/-- `os.stat` through the model: the entry a path string designates. -/
def statAt (fs : FS) (s : String) : Option Entry :=
  (resolve fs s).bind fs.find

/-- `Path.exists()`. -/
def pathExists (fs : FS) (s : String) : Bool :=
  (statAt fs s).isSome

/-- `Path.is_file()`. -/
def pathIsFile (fs : FS) (s : String) : Bool :=
  match statAt fs s with
  | some (.file _ _) => true
  | _ => false

/-- `Path.is_dir()`. -/
def pathIsDir (fs : FS) (s : String) : Bool :=
  match statAt fs s with
  | some (.dir _) => true
  | _ => false

/-- Surround a string with single quotes, as CPython's OS error messages
quote the offending path. -/
def quoted (s : String) : String := "'" ++ s ++ "'"

/-- `Path.mkdir(parents=True, exist_ok=True)`: walk the parsed components
from `cur`, descending through existing directories and creating the
missing ones; a component bound to a regular file aborts the walk with the
errno message the OS raises (ENOTDIR for an intermediate component,
EEXIST for the final one, the latter because `exist_ok` only forgives an
existing directory).  The error carries the state at the raise point,
since already-created parents persist.  `disp` is the display form of the
requested path, used in the error messages. -/
def mkdirWalk (disp : String) : FS → List String → List String → Except (String × FS) FS
  | fs, _, [] => .ok fs
  | fs, cur, c :: rest =>
    if c = ".." then mkdirWalk disp fs cur.dropLast rest
    else
      match fs.find (cur ++ [c]) with
      | some (.dir _) => mkdirWalk disp fs (cur ++ [c]) rest
      | some (.file _ _) =>
          if rest.isEmpty then
            .error ("[Errno 17] File exists: " ++ quoted disp, fs)
          else
            .error ("[Errno 20] Not a directory: " ++ quoted disp, fs)
      | none => mkdirWalk disp (fs.setEntry (cur ++ [c]) (.dir fs.clock)) (cur ++ [c]) rest

/-- `Path.write_text(content, encoding="utf-8")`: resolve the target and
overwrite (or create) the regular file there; a target that resolves to a
directory raises EISDIR, and a failing walk raises ENOENT. -/
def writeText (fs : FS) (s : String) (content : String) : Except (String × FS) FS :=
  match resolve fs s with
  | none => .error ("[Errno 2] No such file or directory: " ++ quoted (pathStr s), fs)
  | some r =>
    match fs.find r with
    | some (.dir _) => .error ("[Errno 21] Is a directory: " ++ quoted (pathStr s), fs)
    | _ => .ok (fs.setEntry r (.file content fs.clock))

/-- The names of the immediate children of the directory at canonical path
`r` (models `os.listdir` / `Path.iterdir`). -/
def childNamesOf (entries : List (List String × Entry)) (r : List String) : List String :=
  entries.filterMap (fun pe =>
    match pe.1.getLast? with
    | some n => if pe.1.dropLast = r then some n else none
    | none => none)

/-- Sort names as `sorted(path.iterdir())` does: lexicographically by code
point (all children share the directory prefix, so comparing the `Path`
strings compares the names). -/
def sortStrs (l : List String) : List String :=
  l.insertionSort (fun a b => a ≤ b)

/-- Render one directory entry as the `list_directory` loop does. -/
def renderChild (fs : FS) (r : List String) (n : String) : String :=
  match fs.find (r ++ [n]) with
  | some (.dir _) => "[DIR] " ++ n
  | _ => "[FILE] " ++ n

/-- The text block `list_directory` produces for the directory at
canonical path `r`. -/
def listingText (fs : FS) (r : List String) : String :=
  let es := (sortStrs (childNamesOf fs.entries r)).map (renderChild fs r)
  if es.isEmpty then "(empty directory)" else String.intercalate "\n" es

/-- UTF-8 byte length of a string (the `st_size` of a file whose content
was written with `write_text(..., encoding="utf-8")`). -/
def utf8Len (s : String) : Nat := s.utf8ByteSize

/-- `st_size` as reported by the model: the UTF-8 byte length for files;
for directories the host-dependent directory-entry size (the ext4 default
block, not a recursive content size). -/
def entrySize : Entry → Nat
  | .file c _ => utf8Len c
  | .dir _ => 4096

/-- The modification time of an entry. -/
def entryMtime : Entry → Nat
  | .file _ t => t
  | .dir t => t

/-- The `Type:` field of `file_info`. -/
def typeName : Entry → String
  | .dir _ => "Directory"
  | .file _ _ => "File"

/-- `str(Path(s).absolute())`: textual join of the working directory and
the path (no ".." elimination, no symlink resolution). -/
def absoluteStr (fs : FS) (s : String) : String :=
  if isAbs s then pathStr s
  else "/" ++ String.intercalate "/" (fs.cwd ++ splitPath s)

/-- The four-line info text `file_info` builds for the entry `e` found at
path string `s`. -/
def infoText (fs : FS) (s : String) (e : Entry) : String :=
  String.intercalate "\n"
    [ "Path: " ++ absoluteStr fs s,
      "Type: " ++ typeName e,
      "Size: " ++ toString (entrySize e) ++ " bytes",
      "Modified: " ++ toString (entryMtime e) ]

/-- One `TextContent(type="text", text=...)` block. -/
structure TextContent where
  type : String
  text : String
deriving DecidableEq, Repr

/-- Build a text block, as every branch of `call_tool` does. -/
def mkText (s : String) : TextContent := ⟨"text", s⟩

/-- `arguments[key]` on the argument mapping, as an association-list
lookup. -/
def getArg : List (String × String) → String → Option String
  | [], _ => none
  | (k, v) :: rest, key => if k = key then some v else getArg rest key

/-- The body of `call_tool` (everything inside its `try`): branch on the
tool name and perform the file operation.  A raised exception is an
`Except.error` carrying the exception message rendered by `str(e)` (for a
`KeyError` on a missing argument, the quoted key) together with the state
at the raise point.  Every successful branch returns a singleton list of
text blocks, exactly as the source does. -/
def dispatchBody (name : String) (args : List (String × String)) (fs : FS) :
    Except (String × FS) (List TextContent × FS) :=
  if name = "read_file" then
    match getArg args "path" with
    | none => .error (quoted "path", fs)
    | some p =>
      match resolve fs p with
      | none => .ok ([mkText ("Error: File not found: " ++ pathStr p)], fs)
      | some r =>
        match fs.find r with
        | none => .ok ([mkText ("Error: File not found: " ++ pathStr p)], fs)
        | some (.dir _) => .ok ([mkText ("Error: Not a file: " ++ pathStr p)], fs)
        | some (.file c _) => .ok ([mkText c], fs)
  else if name = "write_file" then
    match getArg args "path" with
    | none => .error (quoted "path", fs)
    | some p =>
      match getArg args "content" with
      | none => .error (quoted "content", fs)
      | some content =>
        match mkdirWalk (pathStr p) fs (startDir fs p) (splitPath p).dropLast with
        | .error ef => .error ef
        | .ok fs1 =>
          match writeText fs1 p content with
          | .error ef => .error ef
          | .ok fs2 => .ok ([mkText ("Successfully wrote to " ++ pathStr p)], fs2)
  else if name = "list_directory" then
    match getArg args "path" with
    | none => .error (quoted "path", fs)
    | some p =>
      match resolve fs p with
      | none => .ok ([mkText ("Error: Directory not found: " ++ pathStr p)], fs)
      | some r =>
        match fs.find r with
        | none => .ok ([mkText ("Error: Directory not found: " ++ pathStr p)], fs)
        | some (.file _ _) => .ok ([mkText ("Error: Not a directory: " ++ pathStr p)], fs)
        | some (.dir _) => .ok ([mkText (listingText fs r)], fs)
  else if name = "create_directory" then
    match getArg args "path" with
    | none => .error (quoted "path", fs)
    | some p =>
      match mkdirWalk (pathStr p) fs (startDir fs p) (splitPath p) with
      | .error ef => .error ef
      | .ok fs1 => .ok ([mkText ("Successfully created directory: " ++ pathStr p)], fs1)
  else if name = "delete_file" then
    match getArg args "path" with
    | none => .error (quoted "path", fs)
    | some p =>
      match resolve fs p with
      | none => .ok ([mkText ("Error: File not found: " ++ pathStr p)], fs)
      | some r =>
        match fs.find r with
        | none => .ok ([mkText ("Error: File not found: " ++ pathStr p)], fs)
        | some (.dir _) => .ok ([mkText ("Error: Not a file: " ++ pathStr p)], fs)
        | some (.file _ _) =>
            .ok ([mkText ("Successfully deleted: " ++ pathStr p)], fs.removeEntry r)
  else if name = "file_info" then
    match getArg args "path" with
    | none => .error (quoted "path", fs)
    | some p =>
      match statAt fs p with
      | none => .ok ([mkText ("Error: Path not found: " ++ pathStr p)], fs)
      | some e => .ok ([mkText (infoText fs p e)], fs)
  else
    .ok ([mkText ("Error: Unknown tool: " ++ name)], fs)

/-- `call_tool`: run the body; the blanket `except Exception` renders any
raised exception as one text block `"Error: " + str(e)`, leaving in place
whatever the operation mutated before raising. -/
def dispatch (name : String) (args : List (String × String)) (fs : FS) :
    List TextContent × FS :=
  match dispatchBody name args fs with
  | .ok r => r
  | .error (m, fs1) => ([mkText ("Error: " ++ m)], fs1)

/-- One named parameter of an input schema. -/
structure SchemaProperty where
  name : String
  type : String
  description : String
deriving DecidableEq, Repr

/-- A JSON-schema object as declared by `list_tools`. -/
structure InputSchema where
  type : String
  properties : List SchemaProperty
  required : List String
deriving DecidableEq, Repr

/-- One tool descriptor. -/
structure Tool where
  name : String
  description : String
  inputSchema : InputSchema
deriving DecidableEq, Repr

/-- `list_tools`: the fixed catalog of six tool descriptors; a constant
(no arguments, no state touched). -/
def list_tools : List Tool :=
  [ { name := "read_file",
      description := "Read the contents of a file",
      inputSchema :=
        { type := "object",
          properties := [⟨"path", "string", "Path to the file to read"⟩],
          required := ["path"] } },
    { name := "write_file",
      description := "Write content to a file",
      inputSchema :=
        { type := "object",
          properties := [⟨"path", "string", "Path to the file to write"⟩,
                         ⟨"content", "string", "Content to write to the file"⟩],
          required := ["path", "content"] } },
    { name := "list_directory",
      description := "List files and directories in a path",
      inputSchema :=
        { type := "object",
          properties := [⟨"path", "string", "Path to the directory to list"⟩],
          required := ["path"] } },
    { name := "create_directory",
      description := "Create a new directory",
      inputSchema :=
        { type := "object",
          properties := [⟨"path", "string", "Path of the directory to create"⟩],
          required := ["path"] } },
    { name := "delete_file",
      description := "Delete a file",
      inputSchema :=
        { type := "object",
          properties := [⟨"path", "string", "Path to the file to delete"⟩],
          required := ["path"] } },
    { name := "file_info",
      description := "Get information about a file or directory",
      inputSchema :=
        { type := "object",
          properties := [⟨"path", "string", "Path to get info about"⟩],
          required := ["path"] } } ]

/-- The six tool names in catalog order. -/
def toolNames : List String :=
  ["read_file", "write_file", "list_directory", "create_directory",
   "delete_file", "file_info"]

/-- Well-formedness of a file-system state: the root and the working
directory are directories, and the parent of every entry is a directory.
Every state reachable from a real mounted file system satisfies this. -/
def WF (fs : FS) : Bool :=
  isDirAt fs.entries [] &&
  isDirAt fs.entries fs.cwd &&
  fs.entries.all (fun pe => pe.1.isEmpty || isDirAt fs.entries pe.1.dropLast)

/-- An initial state: an empty root directory, which is also the working
directory. -/
def fs0 : FS := { entries := [([], .dir 0)], cwd := [], clock := 1 }

/-- A state with one subdirectory `d` of the root. -/
def fsD : FS := { entries := [([], .dir 0), (["d"], .dir 0)], cwd := [], clock := 1 }

/-- A state with one regular file `f` (content "ab", mtime 5) in the
root. -/
def fsF : FS := { entries := [([], .dir 0), (["f"], .file "ab" 5)], cwd := [], clock := 6 }

/-! ### Association-list lemmas -/

theorem lookupEnt_eraseKey (p q : List String) (l : List (List String × Entry)) :
    lookupEnt (eraseKey p l) q = if q = p then none else lookupEnt l q := by
  induction l with
  | nil => simp [eraseKey, lookupEnt]
  | cons pe rest ih =>
    obtain ⟨k, e⟩ := pe
    by_cases hk : k = p
    · subst hk
      rw [show eraseKey k ((k, e) :: rest) = eraseKey k rest from by simp [eraseKey], ih]
      by_cases hq : q = k
      · simp [hq]
      · simp [hq, lookupEnt, show ¬ k = q from fun h => hq h.symm]
    · rw [show eraseKey p ((k, e) :: rest) = (k, e) :: eraseKey p rest from by
        simp [eraseKey, hk]]
      by_cases hkq : k = q
      · subst hkq
        simp [lookupEnt, show ¬ k = p from hk]
      · simp [lookupEnt, hkq, ih]

theorem mem_of_mem_eraseKey (p : List String) (pe : List String × Entry)
    (l : List (List String × Entry)) (h : pe ∈ eraseKey p l) : pe ∈ l := by
  induction l with
  | nil => simp [eraseKey] at h
  | cons qe rest ih =>
    obtain ⟨k, e⟩ := qe
    simp only [eraseKey] at h
    by_cases hk : k = p
    · simp only [if_pos hk] at h
      exact List.mem_cons_of_mem _ (ih h)
    · simp only [if_neg hk, List.mem_cons] at h
      rcases h with h | h
      · exact h ▸ List.mem_cons_self _ _
      · exact List.mem_cons_of_mem _ (ih h)

theorem lookupEnt_mem (p : List String) (e : Entry) :
    ∀ l : List (List String × Entry), lookupEnt l p = some e → (p, e) ∈ l := by
  intro l
  induction l with
  | nil => intro h; simp [lookupEnt] at h
  | cons qe rest ih =>
    obtain ⟨k, v⟩ := qe
    intro h
    simp only [lookupEnt] at h
    by_cases hk : k = p
    · subst hk
      rw [if_pos rfl] at h
      injection h with h
      subst h
      exact List.mem_cons_self _ _
    · rw [if_neg hk] at h
      exact List.mem_cons_of_mem _ (ih h)

theorem find_setEntry (fs : FS) (p q : List String) (e : Entry) :
    (fs.setEntry p e).find q = if q = p then some e else fs.find q := by
  show lookupEnt ((p, e) :: eraseKey p fs.entries) q = _
  simp only [lookupEnt, lookupEnt_eraseKey]
  by_cases h : q = p
  · simp [h]
  · rw [if_neg (show ¬ p = q from fun hpq => h hpq.symm), if_neg h, if_neg h]
    rfl

theorem find_removeEntry (fs : FS) (p q : List String) :
    (fs.removeEntry p).find q = if q = p then none else fs.find q := by
  show lookupEnt (eraseKey p fs.entries) q = _
  exact lookupEnt_eraseKey p q fs.entries

theorem setEntry_cwd (fs : FS) (p : List String) (e : Entry) :
    (fs.setEntry p e).cwd = fs.cwd := rfl

theorem isDirAt_find (fs : FS) (p : List String) :
    isDirAt fs.entries p = true ↔ ∃ t, fs.find p = some (.dir t) := by
  unfold isDirAt
  show (match fs.find p with | some (.dir _) => true | _ => false) = true ↔ _
  cases h : fs.find p with
  | none => simp
  | some e => cases e <;> simp

/-! ### String helpers -/

theorem append_ne_append_of_head (a b : String) (c d : Char) (la lb : List Char)
    (ha : a.data = c :: la) (hb : b.data = d :: lb) (hcd : c ≠ d) (m p : String) :
    a ++ m ≠ b ++ p := by
  intro h
  have h2 := congrArg String.data h
  rw [String.data_append, String.data_append, ha, hb] at h2
  simp only [List.cons_append, List.cons.injEq] at h2
  exact hcd h2.1

theorem error_ne_wrote (m p : String) :
    ("Error: " ++ m) ≠ ("Successfully wrote to " ++ p) :=
  append_ne_append_of_head _ _ 'E' 'S' "rror: ".data "uccessfully wrote to ".data
    rfl rfl (by decide) m p

theorem error_ne_created (m p : String) :
    ("Error: " ++ m) ≠ ("Successfully created directory: " ++ p) :=
  append_ne_append_of_head _ _ 'E' 'S' "rror: ".data
    "uccessfully created directory: ".data rfl rfl (by decide) m p

theorem toDigitsCore_length_ge (b : Nat) :
    ∀ (f n : Nat) (ds : List Char), ds.length ≤ (Nat.toDigitsCore b f n ds).length := by
  intro f
  induction f with
  | zero => intro n ds; simp [Nat.toDigitsCore]
  | succ f ih =>
    intro n ds
    simp only [Nat.toDigitsCore]
    split
    · simp
    · exact Nat.le_trans (Nat.le_succ _) (ih (n / b) ((n % b).digitChar :: ds))

theorem natToString_ne_empty (n : Nat) : toString n ≠ "" := by
  intro h
  have hdata : (Nat.toDigits 10 n) = [] := congrArg String.data h
  have hlen : 1 ≤ (Nat.toDigits 10 n).length := by
    unfold Nat.toDigits
    simp only [Nat.toDigitsCore]
    split
    · simp
    · exact Nat.le_trans (by simp) (toDigitsCore_length_ge 10 _ _ _)
  rw [hdata] at hlen
  simp at hlen

/-! ### Walk lemmas -/

/-- The canonical path a component walk ends at, as a pure fold. -/
def canonEnd (cur : List String) : List String → List String
  | [] => cur
  | c :: rest => canonEnd (if c = ".." then cur.dropLast else cur ++ [c]) rest

theorem mkdirWalk_cwd (disp : String) :
    ∀ (comps : List String) (fs : FS) (cur : List String) (fs1 : FS),
      mkdirWalk disp fs cur comps = .ok fs1 → fs1.cwd = fs.cwd := by
  intro comps
  induction comps with
  | nil =>
    intro fs cur fs1 h
    cases h
    rfl
  | cons c rest ih =>
    intro fs cur fs1 h
    unfold mkdirWalk at h
    by_cases hc : c = ".."
    · rw [if_pos hc] at h
      exact ih fs cur.dropLast fs1 h
    · rw [if_neg hc] at h
      cases hfind : fs.find (cur ++ [c]) with
      | none =>
        simp only [hfind] at h
        exact (ih _ _ _ h).trans rfl
      | some e =>
        cases e with
        | dir t =>
          simp only [hfind] at h
          exact ih fs (cur ++ [c]) fs1 h
        | file c0 t0 =>
          simp only [hfind] at h
          split at h <;> cases h

theorem mkdirWalk_preserves_dir (disp : String) :
    ∀ (comps : List String) (fs : FS) (cur q : List String) (t : Nat) (fs1 : FS),
      fs.find q = some (.dir t) → mkdirWalk disp fs cur comps = .ok fs1 →
      fs1.find q = some (.dir t) := by
  intro comps
  induction comps with
  | nil =>
    intro fs cur q t fs1 hq h
    cases h
    exact hq
  | cons c rest ih =>
    intro fs cur q t fs1 hq h
    unfold mkdirWalk at h
    by_cases hc : c = ".."
    · rw [if_pos hc] at h
      exact ih fs cur.dropLast q t fs1 hq h
    · rw [if_neg hc] at h
      cases hfind : fs.find (cur ++ [c]) with
      | none =>
        simp only [hfind] at h
        refine ih _ _ q t fs1 ?_ h
        rw [find_setEntry]
        rw [if_neg ?_]
        · exact hq
        · intro he
          rw [he, hfind] at hq
          cases hq
      | some e =>
        cases e with
        | dir t2 =>
          simp only [hfind] at h
          exact ih fs (cur ++ [c]) q t fs1 hq h
        | file c0 t0 =>
          simp only [hfind] at h
          split at h <;> cases h

theorem mkdirWalk_idem (disp : String) :
    ∀ (comps : List String) (fs : FS) (cur : List String) (fs1 : FS),
      mkdirWalk disp fs cur comps = .ok fs1 →
      mkdirWalk disp fs1 cur comps = .ok fs1 := by
  intro comps
  induction comps with
  | nil =>
    intro fs cur fs1 h
    cases h
    rfl
  | cons c rest ih =>
    intro fs cur fs1 h
    unfold mkdirWalk at h ⊢
    by_cases hc : c = ".."
    · rw [if_pos hc] at h ⊢
      exact ih fs cur.dropLast fs1 h
    · rw [if_neg hc] at h ⊢
      cases hfind : fs.find (cur ++ [c]) with
      | none =>
        simp only [hfind] at h
        have hdir : fs1.find (cur ++ [c]) = some (.dir fs.clock) := by
          refine mkdirWalk_preserves_dir disp rest _ _ _ _ fs1 ?_ h
          rw [find_setEntry, if_pos rfl]
        simp only [hdir]
        exact ih _ _ fs1 h
      | some e =>
        cases e with
        | dir t =>
          simp only [hfind] at h
          have hdir : fs1.find (cur ++ [c]) = some (.dir t) :=
            mkdirWalk_preserves_dir disp rest fs (cur ++ [c]) (cur ++ [c]) t fs1 hfind h
          simp only [hdir]
          exact ih fs (cur ++ [c]) fs1 h
        | file c0 t0 =>
          simp only [hfind] at h
          split at h <;> cases h

/-! ### Well-formedness lemmas -/

theorem WF_root (fs : FS) (h : WF fs = true) : isDirAt fs.entries [] = true := by
  unfold WF at h
  simp only [Bool.and_eq_true] at h
  exact h.1.1

theorem WF_cwd (fs : FS) (h : WF fs = true) : isDirAt fs.entries fs.cwd = true := by
  unfold WF at h
  simp only [Bool.and_eq_true] at h
  exact h.1.2

theorem WF_parent (fs : FS) (h : WF fs = true) (p : List String) (e : Entry)
    (hp : fs.find p = some e) : isDirAt fs.entries p.dropLast = true := by
  have hmem : (p, e) ∈ fs.entries := lookupEnt_mem p e fs.entries hp
  have h2 := h
  unfold WF at h2
  simp only [Bool.and_eq_true, List.all_eq_true] at h2
  have h3 := h2.2 (p, e) hmem
  simp only [Bool.or_eq_true] at h3
  rcases h3 with hemp | hdir
  · have hpnil : p = [] := by
      cases p with
      | nil => rfl
      | cons a l => simp [List.isEmpty] at hemp
    rw [hpnil]
    exact WF_root fs h
  · exact hdir

theorem WF_setEntry_dir (fs : FS) (cur : List String) (c : String) (k : Nat)
    (hwf : WF fs = true) (hcur : isDirAt fs.entries cur = true)
    (hnew : fs.find (cur ++ [c]) = none) :
    WF (fs.setEntry (cur ++ [c]) (.dir k)) = true := by
  have hne_of_dir : ∀ q, isDirAt fs.entries q = true → q ≠ cur ++ [c] := by
    intro q hdq he
    obtain ⟨t2, ht2⟩ := (isDirAt_find fs q).mp hdq
    rw [he, hnew] at ht2
    cases ht2
  have hdirAt' : ∀ q, q ≠ cur ++ [c] → isDirAt fs.entries q = true →
      isDirAt (fs.setEntry (cur ++ [c]) (.dir k)).entries q = true := by
    intro q hq hdq
    obtain ⟨t2, ht2⟩ := (isDirAt_find fs q).mp hdq
    refine (isDirAt_find _ q).mpr ⟨t2, ?_⟩
    rw [find_setEntry, if_neg hq]
    exact ht2
  unfold WF
  simp only [Bool.and_eq_true, List.all_eq_true]
  refine ⟨⟨?_, ?_⟩, ?_⟩
  · exact hdirAt' [] (hne_of_dir [] (WF_root fs hwf)) (WF_root fs hwf)
  · rw [show (fs.setEntry (cur ++ [c]) (.dir k)).cwd = fs.cwd from rfl]
    exact hdirAt' fs.cwd (hne_of_dir fs.cwd (WF_cwd fs hwf)) (WF_cwd fs hwf)
  · intro pe hpe
    simp only [FS.setEntry, List.mem_cons] at hpe
    rcases hpe with hpe | hpe
    · subst hpe
      simp only [Bool.or_eq_true]
      right
      rw [show (cur ++ [c], Entry.dir k).1.dropLast = cur from by simp]
      exact hdirAt' cur (hne_of_dir cur hcur) hcur
    · have hmem : pe ∈ fs.entries := mem_of_mem_eraseKey _ pe _ hpe
      have h2 := hwf
      unfold WF at h2
      simp only [Bool.and_eq_true, List.all_eq_true] at h2
      have h3 := h2.2 pe hmem
      simp only [Bool.or_eq_true] at h3 ⊢
      rcases h3 with hemp | hdir
      · exact Or.inl hemp
      · exact Or.inr (hdirAt' pe.1.dropLast (hne_of_dir _ hdir) hdir)

/-- A successful `mkdirWalk` preserves well-formedness, ends at the
canonical fold of the components with the walk end a directory, and the
resulting state resolves the same components to that end. -/
theorem mkdirWalk_ok_spec (disp : String) :
    ∀ (comps : List String) (fs : FS) (cur : List String) (fs1 : FS),
      WF fs = true → isDirAt fs.entries cur = true →
      mkdirWalk disp fs cur comps = .ok fs1 →
      WF fs1 = true ∧ isDirAt fs1.entries (canonEnd cur comps) = true ∧
        walkResolve fs1 cur comps = some (canonEnd cur comps) := by
  intro comps
  induction comps with
  | nil =>
    intro fs cur fs1 hwf hcur h
    cases h
    exact ⟨hwf, hcur, rfl⟩
  | cons c rest ih =>
    intro fs cur fs1 hwf hcur h
    obtain ⟨t, hcurt⟩ := (isDirAt_find fs cur).mp hcur
    unfold mkdirWalk at h
    by_cases hc : c = ".."
    · rw [if_pos hc] at h
      have hpar : isDirAt fs.entries cur.dropLast = true := WF_parent fs hwf cur _ hcurt
      obtain ⟨hwf1, hend, hres⟩ := ih fs cur.dropLast fs1 hwf hpar h
      have hcur1 : fs1.find cur = some (.dir t) :=
        mkdirWalk_preserves_dir disp rest fs cur.dropLast cur t fs1 hcurt h
      refine ⟨hwf1, ?_, ?_⟩
      · rw [show canonEnd cur (c :: rest) = canonEnd cur.dropLast rest from by
          simp [canonEnd, hc]]
        exact hend
      · unfold walkResolve
        rw [hcur1, if_pos hc]
        rw [show canonEnd cur (c :: rest) = canonEnd cur.dropLast rest from by
          simp [canonEnd, hc]]
        exact hres
    · rw [if_neg hc] at h
      have hcanon : canonEnd cur (c :: rest) = canonEnd (cur ++ [c]) rest := by
        simp [canonEnd, hc]
      cases hfind : fs.find (cur ++ [c]) with
      | none =>
        simp only [hfind] at h
        have hwf' : WF (fs.setEntry (cur ++ [c]) (.dir fs.clock)) = true :=
          WF_setEntry_dir fs cur c fs.clock hwf hcur hfind
        have hcur' : isDirAt (fs.setEntry (cur ++ [c]) (.dir fs.clock)).entries
            (cur ++ [c]) = true := by
          refine (isDirAt_find _ _).mpr ⟨fs.clock, ?_⟩
          rw [find_setEntry, if_pos rfl]
        obtain ⟨hwf1, hend, hres⟩ := ih _ (cur ++ [c]) fs1 hwf' hcur' h
        have hcurne : cur ≠ cur ++ [c] := by
          intro he
          have := congrArg List.length he
          simp at this
        have hcur1 : fs1.find cur = some (.dir t) := by
          refine mkdirWalk_preserves_dir disp rest _ _ cur t fs1 ?_ h
          rw [find_setEntry, if_neg hcurne]
          exact hcurt
        refine ⟨hwf1, hcanon ▸ hend, ?_⟩
        unfold walkResolve
        rw [hcur1, if_neg hc, hcanon]
        exact hres
      | some e =>
        cases e with
        | dir t2 =>
          simp only [hfind] at h
          have hcur' : isDirAt fs.entries (cur ++ [c]) = true :=
            (isDirAt_find fs _).mpr ⟨t2, hfind⟩
          obtain ⟨hwf1, hend, hres⟩ := ih fs (cur ++ [c]) fs1 hwf hcur' h
          have hcur1 : fs1.find cur = some (.dir t) :=
            mkdirWalk_preserves_dir disp rest fs (cur ++ [c]) cur t fs1 hcurt h
          refine ⟨hwf1, hcanon ▸ hend, ?_⟩
          unfold walkResolve
          rw [hcur1, if_neg hc, hcanon]
          exact hres
        | file c0 t0 =>
          simp only [hfind] at h
          split at h <;> cases h

/-- When the component walk resolves to a path bound to a regular file,
`mkdirWalk` raises (the state is left unchanged). -/
theorem mkdirWalk_file_target (disp : String) :
    ∀ (comps : List String) (fs : FS) (cur r : List String) (c0 : String) (t0 : Nat),
      WF fs = true → isDirAt fs.entries cur = true →
      walkResolve fs cur comps = some r → fs.find r = some (.file c0 t0) →
      ∃ m, mkdirWalk disp fs cur comps = .error (m, fs) := by
  intro comps
  induction comps with
  | nil =>
    intro fs cur r c0 t0 hwf hcur hres hfile
    cases hres
    obtain ⟨t, ht⟩ := (isDirAt_find fs cur).mp hcur
    rw [ht] at hfile
    cases hfile
  | cons c rest ih =>
    intro fs cur r c0 t0 hwf hcur hres hfile
    obtain ⟨t, hcurt⟩ := (isDirAt_find fs cur).mp hcur
    unfold walkResolve at hres
    rw [hcurt] at hres
    unfold mkdirWalk
    by_cases hc : c = ".."
    · rw [if_pos hc] at hres ⊢
      have hpar : isDirAt fs.entries cur.dropLast = true := WF_parent fs hwf cur _ hcurt
      exact ih fs cur.dropLast r c0 t0 hwf hpar hres hfile
    · rw [if_neg hc] at hres ⊢
      cases hfind : fs.find (cur ++ [c]) with
      | none =>
        exfalso
        cases rest with
        | nil =>
          cases hres
          rw [hfind] at hfile
          cases hfile
        | cons c2 rest2 =>
          unfold walkResolve at hres
          rw [hfind] at hres
          cases hres
      | some e =>
        cases e with
        | dir t2 =>
          simp only [hfind]
          have hcur' : isDirAt fs.entries (cur ++ [c]) = true :=
            (isDirAt_find fs _).mpr ⟨t2, hfind⟩
          exact ih fs (cur ++ [c]) r c0 t0 hwf hcur' hres hfile
        | file c1 t1 =>
          simp only [hfind]
          cases hrest : rest.isEmpty
          · exact ⟨"[Errno 20] Not a directory: " ++ quoted disp, by simp [hrest]⟩
          · exact ⟨"[Errno 17] File exists: " ++ quoted disp, by simp [hrest]⟩

/-- Overwriting (or creating) an entry that is not a directory does not
change any successful walk. -/
theorem walkResolve_setEntry_nondir (fs : FS) (r : List String) (e : Entry)
    (hnd : ∀ t, fs.find r ≠ some (.dir t)) :
    ∀ (comps cur res : List String), walkResolve fs cur comps = some res →
      walkResolve (fs.setEntry r e) cur comps = some res := by
  intro comps
  induction comps with
  | nil =>
    intro cur res h
    exact h
  | cons c rest ih =>
    intro cur res h
    unfold walkResolve at h ⊢
    cases hcur : fs.find cur with
    | none => rw [hcur] at h; cases h
    | some e2 =>
      cases e2 with
      | file c0 t0 => rw [hcur] at h; cases h
      | dir t =>
        rw [hcur] at h
        have hne : cur ≠ r := by
          intro he
          exact hnd t (he ▸ hcur)
        rw [find_setEntry, if_neg hne, hcur]
        exact ih _ res h

/-! ### Dispatch branch equations -/

theorem dispatch_eq_of_body_ok (name : String) (args : List (String × String)) (fs : FS)
    (l : List TextContent) (fs1 : FS) (h : dispatchBody name args fs = .ok (l, fs1)) :
    dispatch name args fs = (l, fs1) := by
  unfold dispatch
  rw [h]

theorem dispatch_eq_of_body_error (name : String) (args : List (String × String)) (fs : FS)
    (m : String) (fs1 : FS) (h : dispatchBody name args fs = .error (m, fs1)) :
    dispatch name args fs = ([mkText ("Error: " ++ m)], fs1) := by
  unfold dispatch
  rw [h]

theorem body_read_file (args : List (String × String)) (fs : FS) (P : String)
    (hp : getArg args "path" = some P) :
    dispatchBody "read_file" args fs =
      (match resolve fs P with
       | none => .ok ([mkText ("Error: File not found: " ++ pathStr P)], fs)
       | some r =>
         match fs.find r with
         | none => .ok ([mkText ("Error: File not found: " ++ pathStr P)], fs)
         | some (.dir _) => .ok ([mkText ("Error: Not a file: " ++ pathStr P)], fs)
         | some (.file c _) => .ok ([mkText c], fs)) := by
  unfold dispatchBody
  rw [if_pos rfl, hp]

theorem body_write_file (args : List (String × String)) (fs : FS) (P C : String)
    (hp : getArg args "path" = some P) (hc : getArg args "content" = some C) :
    dispatchBody "write_file" args fs =
      (match mkdirWalk (pathStr P) fs (startDir fs P) (splitPath P).dropLast with
       | .error ef => .error ef
       | .ok fs1 =>
         match writeText fs1 P C with
         | .error ef => .error ef
         | .ok fs2 => .ok ([mkText ("Successfully wrote to " ++ pathStr P)], fs2)) := by
  unfold dispatchBody
  rw [if_neg (by decide), if_pos rfl, hp, hc]

theorem body_list_directory (args : List (String × String)) (fs : FS) (P : String)
    (hp : getArg args "path" = some P) :
    dispatchBody "list_directory" args fs =
      (match resolve fs P with
       | none => .ok ([mkText ("Error: Directory not found: " ++ pathStr P)], fs)
       | some r =>
         match fs.find r with
         | none => .ok ([mkText ("Error: Directory not found: " ++ pathStr P)], fs)
         | some (.file _ _) => .ok ([mkText ("Error: Not a directory: " ++ pathStr P)], fs)
         | some (.dir _) => .ok ([mkText (listingText fs r)], fs)) := by
  unfold dispatchBody
  rw [if_neg (by decide), if_neg (by decide), if_pos rfl, hp]

theorem body_create_directory (args : List (String × String)) (fs : FS) (P : String)
    (hp : getArg args "path" = some P) :
    dispatchBody "create_directory" args fs =
      (match mkdirWalk (pathStr P) fs (startDir fs P) (splitPath P) with
       | .error ef => .error ef
       | .ok fs1 => .ok ([mkText ("Successfully created directory: " ++ pathStr P)], fs1)) := by
  unfold dispatchBody
  rw [if_neg (by decide), if_neg (by decide), if_neg (by decide), if_pos rfl, hp]

theorem body_delete_file (args : List (String × String)) (fs : FS) (P : String)
    (hp : getArg args "path" = some P) :
    dispatchBody "delete_file" args fs =
      (match resolve fs P with
       | none => .ok ([mkText ("Error: File not found: " ++ pathStr P)], fs)
       | some r =>
         match fs.find r with
         | none => .ok ([mkText ("Error: File not found: " ++ pathStr P)], fs)
         | some (.dir _) => .ok ([mkText ("Error: Not a file: " ++ pathStr P)], fs)
         | some (.file _ _) =>
             .ok ([mkText ("Successfully deleted: " ++ pathStr P)], fs.removeEntry r)) := by
  unfold dispatchBody
  rw [if_neg (by decide), if_neg (by decide), if_neg (by decide), if_neg (by decide),
    if_pos rfl, hp]

theorem body_file_info (args : List (String × String)) (fs : FS) (P : String)
    (hp : getArg args "path" = some P) :
    dispatchBody "file_info" args fs =
      (match statAt fs P with
       | none => .ok ([mkText ("Error: Path not found: " ++ pathStr P)], fs)
       | some e => .ok ([mkText (infoText fs P e)], fs)) := by
  unfold dispatchBody
  rw [if_neg (by decide), if_neg (by decide), if_neg (by decide), if_neg (by decide),
    if_neg (by decide), if_pos rfl, hp]

theorem body_unknown (name : String) (args : List (String × String)) (fs : FS)
    (h : ¬ name ∈ toolNames) :
    dispatchBody name args fs = .ok ([mkText ("Error: Unknown tool: " ++ name)], fs) := by
  simp only [toolNames, List.mem_cons, List.mem_singleton, not_or] at h
  obtain ⟨h1, h2, h3, h4, h5, h6, h7⟩ := h
  unfold dispatchBody
  rw [if_neg h1, if_neg h2, if_neg h3, if_neg h4, if_neg h5, if_neg h6]

theorem body_missing_path (name : String) (args : List (String × String)) (fs : FS)
    (hname : name ∈ toolNames) (hp : getArg args "path" = none) :
    dispatchBody name args fs = .error (quoted "path", fs) := by
  simp only [toolNames, List.mem_cons, List.mem_singleton] at hname
  unfold dispatchBody
  rcases hname with h | h | h | h | h | h | h
  · subst h; rw [if_pos rfl, hp]
  · subst h; rw [if_neg (by decide), if_pos rfl, hp]
  · subst h; rw [if_neg (by decide), if_neg (by decide), if_pos rfl, hp]
  · subst h; rw [if_neg (by decide), if_neg (by decide), if_neg (by decide), if_pos rfl, hp]
  · subst h
    rw [if_neg (by decide), if_neg (by decide), if_neg (by decide), if_neg (by decide),
      if_pos rfl, hp]
  · subst h
    rw [if_neg (by decide), if_neg (by decide), if_neg (by decide), if_neg (by decide),
      if_neg (by decide), if_pos rfl, hp]
  · cases h

theorem dispatchBody_ok_singleton (name : String) (args : List (String × String)) (fs : FS)
    (l : List TextContent) (fs1 : FS)
    (h : dispatchBody name args fs = .ok (l, fs1)) : l.length = 1 := by
  unfold dispatchBody at h
  repeat' split at h
  all_goals simp_all
  all_goals (first | rfl | exact h.1 ▸ rfl)

/-! ### Claim theorems -/

/-- C1: For every tool name (known or unknown) and every argument mapping,
dispatch (`call_tool`) returns exactly one text block and never propagates
an exception to the caller: every fault raised during the operation is
caught and rendered as a single text block whose text begins with
`"Error: "`. -/
theorem C1_dispatch_total (name : String) (args : List (String × String)) (fs : FS) :
    (dispatch name args fs).1.length = 1 ∧
    (∀ (m : String) (fs1 : FS), dispatchBody name args fs = .error (m, fs1) →
      dispatch name args fs = ([mkText ("Error: " ++ m)], fs1)) := by
  constructor
  · cases hb : dispatchBody name args fs with
    | ok r =>
      obtain ⟨l, fs1⟩ := r
      rw [dispatch_eq_of_body_ok name args fs l fs1 hb]
      exact dispatchBody_ok_singleton name args fs l fs1 hb
    | error e =>
      obtain ⟨m, fs1⟩ := e
      rw [dispatch_eq_of_body_error name args fs m fs1 hb]
      rfl
  · intro m fs1 hb
    exact dispatch_eq_of_body_error name args fs m fs1 hb

/-- C1 witness: at a concrete faulting input (missing `path` argument),
the catch-all renders the `KeyError` as a single `"Error: "` block. -/
theorem C1_witness :
    dispatch "read_file" ([] : List (String × String)) fs0 =
      ([mkText ("Error: " ++ quoted "path")], fs0) :=
  (C1_dispatch_total "read_file" [] fs0).2 (quoted "path") fs0 rfl

/-- C2: `list_tools` takes no arguments (it is a constant of the model),
has no side effects, and returns exactly six tool descriptors, each of the
six names appearing exactly once, in the fixed order read_file,
write_file, list_directory, create_directory, delete_file, file_info,
with each tool's input schema requiring the string parameter `path` (and
additionally `content` for write_file). -/
theorem C2_list_tools_catalog :
    list_tools.map Tool.name =
      ["read_file", "write_file", "list_directory", "create_directory",
       "delete_file", "file_info"] ∧
    (list_tools.map Tool.name).Nodup ∧
    list_tools.all (fun t =>
      t.inputSchema.type == "object" &&
      t.inputSchema.properties.any (fun pr => pr.name == "path" && pr.type == "string") &&
      t.inputSchema.required ==
        (if t.name == "write_file" then ["path", "content"] else ["path"]) &&
      (t.name != "write_file" ||
        t.inputSchema.properties.any
          (fun pr => pr.name == "content" && pr.type == "string"))) = true :=
  ⟨rfl, by decide, by decide⟩

/-- C4 counterexample: the claim demands the path argument verbatim in the
error text, but `call_tool` renders `str(Path(arg))`, which normalizes the
string: for the nonexistent path `"x/"` the result text is
`"Error: File not found: x"`, not `"Error: File not found: x/"`. -/
theorem C4_counterexample :
    pathExists fs0 "x/" = false ∧
    (dispatch "read_file" [("path", "x/")] fs0).1 ≠
      [mkText "Error: File not found: x/"] ∧
    (dispatch "read_file" [("path", "x/")] fs0).1 =
      [mkText "Error: File not found: x"] :=
  ⟨rfl, by decide, rfl⟩

/-- C4 (amended): for every path string P that does not exist on the file
system, `dispatch("read_file", {path: P})` returns the result text
`"Error: File not found: " ++ pathStr P`, where `pathStr P` is P as
normalized by `Path` parsing ("." components and duplicate or trailing
separators dropped); it equals P verbatim whenever P is already in
normalized form. -/
theorem C4_read_file_not_found (fs : FS) (P : String) (h : pathExists fs P = false) :
    dispatch "read_file" [("path", P)] fs =
      ([mkText ("Error: File not found: " ++ pathStr P)], fs) := by
  have hp : getArg [("path", P)] "path" = some P := by simp [getArg]
  unfold pathExists statAt at h
  cases hres : resolve fs P with
  | none =>
    refine dispatch_eq_of_body_ok _ _ _ _ _ ?_
    rw [body_read_file [("path", P)] fs P hp, hres]
  | some r =>
    rw [hres] at h
    cases hfind : fs.find r with
    | none =>
      refine dispatch_eq_of_body_ok _ _ _ _ _ ?_
      rw [body_read_file [("path", P)] fs P hp, hres]
      simp only [hfind]
    | some e =>
      rw [show (some r).bind fs.find = fs.find r from rfl, hfind] at h
      cases h

/-- C4 witness: the theorem applied at the nonexistent concrete path
`"nope"` over the initial state. -/
theorem C4_witness :
    dispatch "read_file" [("path", "nope")] fs0 =
      ([mkText ("Error: File not found: " ++ pathStr "nope")], fs0) :=
  C4_read_file_not_found fs0 "nope" rfl

/-- C5: `dispatch("list_directory", {path: D})`: if D does not exist the
result text is `"Error: Directory not found: <path>"`; if D exists but is
not a directory it is `"Error: Not a directory: <path>"`; otherwise the
result is the immediate children sorted by name, each rendered as
`"[DIR] <name>"` or `"[FILE] <name>"`, joined by newlines into one text
block, and for an empty existing directory it is exactly
`"(empty directory)"`. -/
theorem C5_list_directory (fs : FS) (D : String) :
    (pathExists fs D = false →
      dispatch "list_directory" [("path", D)] fs =
        ([mkText ("Error: Directory not found: " ++ pathStr D)], fs)) ∧
    (pathExists fs D = true → pathIsDir fs D = false →
      dispatch "list_directory" [("path", D)] fs =
        ([mkText ("Error: Not a directory: " ++ pathStr D)], fs)) ∧
    (∀ r t, resolve fs D = some r → fs.find r = some (.dir t) →
      dispatch "list_directory" [("path", D)] fs = ([mkText (listingText fs r)], fs) ∧
      (childNamesOf fs.entries r = [] → listingText fs r = "(empty directory)") ∧
      (childNamesOf fs.entries r ≠ [] →
        listingText fs r =
          String.intercalate "\n"
            ((sortStrs (childNamesOf fs.entries r)).map (renderChild fs r))) ∧
      (sortStrs (childNamesOf fs.entries r)).Sorted (fun a b => a ≤ b) ∧
      (∀ x, x ∈ (sortStrs (childNamesOf fs.entries r)).map (renderChild fs r) →
        ∃ n, x = "[DIR] " ++ n ∨ x = "[FILE] " ++ n)) := by
  have hp : getArg [("path", D)] "path" = some D := by simp [getArg]
  refine ⟨?_, ?_, ?_⟩
  · intro h
    unfold pathExists statAt at h
    cases hres : resolve fs D with
    | none =>
      refine dispatch_eq_of_body_ok _ _ _ _ _ ?_
      rw [body_list_directory [("path", D)] fs D hp, hres]
    | some r =>
      rw [hres, show (some r).bind fs.find = fs.find r from rfl] at h
      cases hfind : fs.find r with
      | none =>
        refine dispatch_eq_of_body_ok _ _ _ _ _ ?_
        rw [body_list_directory [("path", D)] fs D hp, hres]
        simp only [hfind]
      | some e =>
        rw [hfind] at h
        cases h
  · intro hex hdir
    unfold pathExists statAt at hex
    unfold pathIsDir statAt at hdir
    cases hres : resolve fs D with
    | none => rw [hres] at hex; cases hex
    | some r =>
      rw [hres, show (some r).bind fs.find = fs.find r from rfl] at hex hdir
      cases hfind : fs.find r with
      | none => rw [hfind] at hex; cases hex
      | some e =>
        cases e with
        | dir t => rw [hfind] at hdir; cases hdir
        | file c t =>
          refine dispatch_eq_of_body_ok _ _ _ _ _ ?_
          rw [body_list_directory [("path", D)] fs D hp, hres]
          simp only [hfind]
  · intro r t hres hfind
    refine ⟨?_, ?_, ?_, ?_, ?_⟩
    · refine dispatch_eq_of_body_ok _ _ _ _ _ ?_
      rw [body_list_directory [("path", D)] fs D hp, hres]
      simp only [hfind]
    · intro h
      simp [listingText, sortStrs, h, List.insertionSort]
    · intro h
      unfold listingText
      cases hs : (sortStrs (childNamesOf fs.entries r)).map (renderChild fs r) with
      | nil =>
        exfalso
        have hnil : sortStrs (childNamesOf fs.entries r) = [] := by
          cases hx : sortStrs (childNamesOf fs.entries r) with
          | nil => rfl
          | cons a l => rw [hx] at hs; cases hs
        have hperm := List.perm_insertionSort (fun a b : String => a ≤ b)
          (childNamesOf fs.entries r)
        rw [show ((childNamesOf fs.entries r).insertionSort (fun a b => a ≤ b)) =
          sortStrs (childNamesOf fs.entries r) from rfl, hnil] at hperm
        exact h (List.Perm.nil_eq hperm).symm
      | cons a l =>
        simp
    · exact List.sorted_insertionSort (fun a b : String => a ≤ b) (childNamesOf fs.entries r)
    · intro x hx
      rw [List.mem_map] at hx
      obtain ⟨n, _, hn⟩ := hx
      refine ⟨n, ?_⟩
      unfold renderChild at hn
      cases hfind2 : fs.find (r ++ [n]) with
      | none => rw [hfind2] at hn; exact Or.inr hn.symm
      | some e =>
        cases e with
        | dir t2 => rw [hfind2] at hn; exact Or.inl hn.symm
        | file c2 t2 => rw [hfind2] at hn; exact Or.inr hn.symm

/-- C5 witness: the theorem applied at the empty directory `d` of a
concrete state. -/
theorem C5_witness :
    dispatch "list_directory" [("path", "d")] fsD = ([mkText "(empty directory)"], fsD) := by
  have h := (C5_list_directory fsD "d").2.2 ["d"] 0 (by decide) (by decide)
  exact h.2.1 (by decide) ▸ h.1

/-- C7 counterexample: for a directory given with a trailing separator,
the rendered text uses the `Path`-normalized form, not D verbatim:
deleting `"d/"` (an existing directory) answers
`"Error: Not a file: d"`, not `"Error: Not a file: d/"`. -/
theorem C7_counterexample :
    pathIsDir fsD "d/" = true ∧
    (dispatch "delete_file" [("path", "d/")] fsD).1 ≠
      [mkText "Error: Not a file: d/"] ∧
    (dispatch "delete_file" [("path", "d/")] fsD).1 =
      [mkText "Error: Not a file: d"] :=
  ⟨rfl, by decide, rfl⟩

/-- C7 (amended): for every path D that exists and is a directory,
`dispatch("delete_file", {path: D})` returns the result text
`"Error: Not a file: " ++ pathStr D` (equal to `"Error: Not a file: D"`
whenever D is already in normalized form) and does not modify the file
system; if D does not exist it returns
`"Error: File not found: " ++ pathStr D`; only when D is an existing
regular file is it removed, returning `"Successfully deleted: <path>"`. -/
theorem C7_delete_file (fs : FS) (D : String) :
    (pathIsDir fs D = true →
      dispatch "delete_file" [("path", D)] fs =
        ([mkText ("Error: Not a file: " ++ pathStr D)], fs)) ∧
    (pathExists fs D = false →
      dispatch "delete_file" [("path", D)] fs =
        ([mkText ("Error: File not found: " ++ pathStr D)], fs)) ∧
    (∀ r c t, resolve fs D = some r → fs.find r = some (.file c t) →
      dispatch "delete_file" [("path", D)] fs =
        ([mkText ("Successfully deleted: " ++ pathStr D)], fs.removeEntry r) ∧
      (fs.removeEntry r).find r = none ∧
      (∀ q, q ≠ r → (fs.removeEntry r).find q = fs.find q)) := by
  have hp : getArg [("path", D)] "path" = some D := by simp [getArg]
  refine ⟨?_, ?_, ?_⟩
  · intro hdir
    unfold pathIsDir statAt at hdir
    cases hres : resolve fs D with
    | none => rw [hres] at hdir; cases hdir
    | some r =>
      rw [hres, show (some r).bind fs.find = fs.find r from rfl] at hdir
      cases hfind : fs.find r with
      | none => rw [hfind] at hdir; cases hdir
      | some e =>
        cases e with
        | file c t => rw [hfind] at hdir; cases hdir
        | dir t =>
          refine dispatch_eq_of_body_ok _ _ _ _ _ ?_
          rw [body_delete_file [("path", D)] fs D hp, hres]
          simp only [hfind]
  · intro h
    unfold pathExists statAt at h
    cases hres : resolve fs D with
    | none =>
      refine dispatch_eq_of_body_ok _ _ _ _ _ ?_
      rw [body_delete_file [("path", D)] fs D hp, hres]
    | some r =>
      rw [hres, show (some r).bind fs.find = fs.find r from rfl] at h
      cases hfind : fs.find r with
      | none =>
        refine dispatch_eq_of_body_ok _ _ _ _ _ ?_
        rw [body_delete_file [("path", D)] fs D hp, hres]
        simp only [hfind]
      | some e => rw [hfind] at h; cases h
  · intro r c t hres hfind
    refine ⟨?_, ?_, ?_⟩
    · refine dispatch_eq_of_body_ok _ _ _ _ _ ?_
      rw [body_delete_file [("path", D)] fs D hp, hres]
      simp only [hfind]
    · rw [find_removeEntry, if_pos rfl]
    · intro q hq
      rw [find_removeEntry, if_neg hq]

/-- C7 witness: the theorem applied at the existing directory `d` of a
concrete state (deletion rejected, state unchanged). -/
theorem C7_witness :
    dispatch "delete_file" [("path", "d")] fsD =
      ([mkText ("Error: Not a file: " ++ pathStr "d")], fsD) :=
  (C7_delete_file fsD "d").1 rfl

/-- C8: `dispatch("file_info", {path: P})` on an existing entry returns
one text block of exactly four lines in this order: the absolute resolved
path, the type (`File`, or `Directory` for a directory), the size in
bytes (for a file, its UTF-8 byte length), and a non-empty last-modified
timestamp (deterministic in the model state); if P does not exist the
result text is `"Error: Path not found: <path>"`. -/
theorem C8_file_info (fs : FS) (P : String) :
    (pathExists fs P = false →
      dispatch "file_info" [("path", P)] fs =
        ([mkText ("Error: Path not found: " ++ pathStr P)], fs)) ∧
    (∀ e, statAt fs P = some e →
      dispatch "file_info" [("path", P)] fs =
        ([mkText (String.intercalate "\n"
            ["Path: " ++ absoluteStr fs P,
             "Type: " ++ typeName e,
             "Size: " ++ toString (entrySize e) ++ " bytes",
             "Modified: " ++ toString (entryMtime e)])], fs) ∧
      (∀ c t, e = .file c t → entrySize e = utf8Len c ∧ typeName e = "File") ∧
      (∀ t, e = .dir t → typeName e = "Directory") ∧
      toString (entryMtime e) ≠ "") := by
  have hp : getArg [("path", P)] "path" = some P := by simp [getArg]
  constructor
  · intro h
    unfold pathExists at h
    cases hstat : statAt fs P with
    | none =>
      refine dispatch_eq_of_body_ok _ _ _ _ _ ?_
      rw [body_file_info [("path", P)] fs P hp, hstat]
    | some e => rw [hstat] at h; cases h
  · intro e hstat
    refine ⟨?_, ?_, ?_, ?_⟩
    · refine dispatch_eq_of_body_ok _ _ _ _ _ ?_
      rw [body_file_info [("path", P)] fs P hp, hstat]
      rfl
    · intro c t he
      subst he
      exact ⟨rfl, rfl⟩
    · intro t he
      subst he
      rfl
    · exact natToString_ne_empty (entryMtime e)

/-- C8 witness: the theorem applied at the concrete file `f` (content
"ab", two UTF-8 bytes, mtime 5). -/
theorem C8_witness :
    dispatch "file_info" [("path", "f")] fsF =
      ([mkText "Path: /f\nType: File\nSize: 2 bytes\nModified: 5"], fsF) := by
  have h := (C8_file_info fsF "f").2 (.file "ab" 5) (by decide)
  rw [h.1]
  rfl

/-- C9: if a required argument key is absent from the argument mapping
(`content` absent for write_file, or `path` absent for any of the six
tools), dispatch returns a single text block rendered by the generic
fault handler as `"Error: " ++ str(KeyError)`, i.e. an error text naming
the missing key in quotes, rather than raising. -/
theorem C9_missing_arguments (fs : FS) (name : String) (args : List (String × String))
    (hname : name ∈ toolNames) :
    (getArg args "path" = none →
      dispatch name args fs = ([mkText ("Error: " ++ quoted "path")], fs)) ∧
    (∀ P, name = "write_file" → getArg args "path" = some P →
      getArg args "content" = none →
      dispatch name args fs = ([mkText ("Error: " ++ quoted "content")], fs)) := by
  constructor
  · intro hp
    exact dispatch_eq_of_body_error _ _ _ _ _ (body_missing_path name args fs hname hp)
  · intro P hn hp hc
    subst hn
    refine dispatch_eq_of_body_error _ _ _ _ _ ?_
    unfold dispatchBody
    rw [if_neg (by decide), if_pos rfl, hp, hc]

/-- C9 witness: the theorem applied with `content` missing for write_file
at a concrete state. -/
theorem C9_witness :
    dispatch "write_file" [("path", "p")] fs0 =
      ([mkText ("Error: " ++ quoted "content")], fs0) :=
  (C9_missing_arguments fs0 "write_file" [("path", "p")] (by decide)).2 "p" rfl rfl rfl

theorem dispatchBody_readonly_ok (name : String) (args : List (String × String)) (fs : FS)
    (l : List TextContent) (fs1 : FS)
    (h : ¬ name ∈ ["write_file", "create_directory", "delete_file"])
    (hb : dispatchBody name args fs = .ok (l, fs1)) : fs1 = fs := by
  unfold dispatchBody at hb
  repeat' split at hb
  all_goals simp_all

theorem dispatchBody_readonly_error (name : String) (args : List (String × String)) (fs : FS)
    (m : String) (fs1 : FS)
    (h : ¬ name ∈ ["write_file", "create_directory", "delete_file"])
    (hb : dispatchBody name args fs = .error (m, fs1)) : fs1 = fs := by
  unfold dispatchBody at hb
  repeat' split at hb
  all_goals simp_all

/-- C10: the read-only dispatches never modify the file system: for every
argument mapping, dispatch with a tool name other than write_file,
create_directory and delete_file (so read_file, list_directory,
file_info, and any unknown name) leaves the state unchanged. -/
theorem C10_readonly_frame (fs : FS) (name : String) (args : List (String × String))
    (h : ¬ name ∈ ["write_file", "create_directory", "delete_file"]) :
    (dispatch name args fs).2 = fs := by
  cases hd : dispatchBody name args fs with
  | ok r =>
    obtain ⟨l, fs1⟩ := r
    rw [dispatch_eq_of_body_ok name args fs l fs1 hd]
    exact dispatchBody_readonly_ok name args fs l fs1 h hd
  | error e =>
    obtain ⟨m, fs1⟩ := e
    rw [dispatch_eq_of_body_error name args fs m fs1 hd]
    exact dispatchBody_readonly_error name args fs m fs1 h hd

/-- C10 witness: the theorem applied at a concrete unknown tool name. -/
theorem C10_witness : (dispatch "unknown_tool_xyz" [] fs0).2 = fs0 :=
  C10_readonly_frame fs0 "unknown_tool_xyz" [] (by decide)

/-- C3 counterexample: the round-trip does not hold for every path string
P: with P = "." (the working directory, an existing directory) the write
raises `IsADirectoryError` (caught as an `"Error: "` block, not the
confirmation text) and the subsequent read answers
`"Error: Not a file: ."`, not the written content. -/
theorem C3_counterexample :
    (dispatch "write_file" [("path", "."), ("content", "hi")] fs0).1 ≠
      [mkText ("Successfully wrote to " ++ pathStr ".")] ∧
    (dispatch "read_file" [("path", ".")]
        (dispatch "write_file" [("path", "."), ("content", "hi")] fs0).2).1 ≠
      [mkText "hi"] :=
  ⟨by decide, by decide⟩

/-- C3 (amended): for every path string P and content string C, whenever
`dispatch("write_file", {path: P, content: C})` returns its confirmation
text `"Successfully wrote to <path>"` (that is, unless the underlying
operation faults, e.g. because P resolves to an existing directory), the
subsequent `dispatch("read_file", {path: P})` returns a text block equal
to C unchanged, for any UTF-8 text content including the empty string;
the write first creates any missing parent directories. -/
theorem C3_write_read_roundtrip (fs : FS) (P C : String)
    (h : (dispatch "write_file" [("path", P), ("content", C)] fs).1 =
      [mkText ("Successfully wrote to " ++ pathStr P)]) :
    (dispatch "read_file" [("path", P)]
        (dispatch "write_file" [("path", P), ("content", C)] fs).2).1 = [mkText C] := by
  have hp : getArg [("path", P), ("content", C)] "path" = some P := by simp [getArg]
  have hc : getArg [("path", P), ("content", C)] "content" = some C := by simp [getArg]
  have hb := body_write_file [("path", P), ("content", C)] fs P C hp hc
  cases hmk : mkdirWalk (pathStr P) fs (startDir fs P) (splitPath P).dropLast with
  | error ef =>
    exfalso
    obtain ⟨m, fsx⟩ := ef
    have hd := dispatch_eq_of_body_error _ _ _ m fsx (by rw [hb, hmk])
    rw [hd] at h
    simp only [mkText, List.cons.injEq, TextContent.mk.injEq, true_and, and_true] at h
    exact error_ne_wrote m (pathStr P) h
  | ok fs1 =>
    cases hwt : writeText fs1 P C with
    | error ef =>
      exfalso
      obtain ⟨m, fsx⟩ := ef
      have hd := dispatch_eq_of_body_error "write_file" [("path", P), ("content", C)] fs
        m fsx (by simp only [hb, hmk, hwt])
      rw [hd] at h
      simp only [mkText, List.cons.injEq, TextContent.mk.injEq, true_and, and_true] at h
      exact error_ne_wrote m (pathStr P) h
    | ok fs2 =>
      have hd := dispatch_eq_of_body_ok _ _ _ _ _ (show dispatchBody "write_file"
        [("path", P), ("content", C)] fs =
          .ok ([mkText ("Successfully wrote to " ++ pathStr P)], fs2) by
        simp only [hb, hmk, hwt])
      rw [hd]
      unfold writeText at hwt
      cases hres : resolve fs1 P with
      | none => simp only [hres] at hwt; cases hwt
      | some r =>
        simp only [hres] at hwt
        have hgoal : ∀ e0 : Option Entry, fs1.find r = e0 →
            (∀ t, e0 ≠ some (.dir t)) → fs2 = fs1.setEntry r (.file C fs1.clock) →
            (dispatch "read_file" [("path", P)] fs2).1 = [mkText C] := by
          intro e0 he0 hnd hfs2
          have hnd1 : ∀ t, fs1.find r ≠ some (.dir t) := by
            intro t
            rw [he0]
            exact hnd t
          have hres2 : resolve fs2 P = some r := by
            unfold resolve at hres ⊢
            rw [show startDir fs2 P = startDir fs1 P from by
              unfold startDir; rw [hfs2, setEntry_cwd], hfs2]
            exact walkResolve_setEntry_nondir fs1 r (.file C fs1.clock) hnd1
              (splitPath P) (startDir fs1 P) r hres
          have hfind2 : fs2.find r = some (.file C fs1.clock) := by
            rw [hfs2, find_setEntry, if_pos rfl]
          have hbody : dispatchBody "read_file" [("path", P)] fs2 = .ok ([mkText C], fs2) := by
            rw [body_read_file [("path", P)] fs2 P (by simp [getArg])]
            simp only [hres2, hfind2]
          rw [dispatch_eq_of_body_ok _ _ _ _ _ hbody]
        cases hfind : fs1.find r with
        | none =>
          rw [hfind] at hwt
          refine hgoal none hfind (by intro t h2; cases h2) ?_
          cases hwt
          rfl
        | some e =>
          cases e with
          | dir t => rw [hfind] at hwt; cases hwt
          | file c0 t0 =>
            rw [hfind] at hwt
            refine hgoal (some (.file c0 t0)) hfind (by intro t h2; cases h2) ?_
            cases hwt
            rfl

/-- C3 witness: the theorem applied at a concrete write/read round trip
(creating the missing parents `a/b` along the way). -/
theorem C3_witness :
    (dispatch "read_file" [("path", "a/b/f")]
        (dispatch "write_file" [("path", "a/b/f"), ("content", "hello")] fs0).2).1 =
      [mkText "hello"] :=
  C3_write_read_roundtrip fs0 "a/b/f" "hello" (by decide)

/-- C6: `dispatch("create_directory", {path: D})` is idempotent: when the
first call returns its confirmation text, the immediately repeated call
returns the same confirmation text and leaves the state exactly as the
first call left it (in particular, a second call on an existing directory
does not error), and D is then a directory; if D exists as a non-directory
file, the operation fails and is rendered via the generic `"Error: "`
catch-all, leaving the state unchanged. -/
theorem C6_create_directory_idempotent (fs : FS) (D : String) (hwf : WF fs = true) :
    ((dispatch "create_directory" [("path", D)] fs).1 =
        [mkText ("Successfully created directory: " ++ pathStr D)] →
      dispatch "create_directory" [("path", D)]
          (dispatch "create_directory" [("path", D)] fs).2 =
        ([mkText ("Successfully created directory: " ++ pathStr D)],
          (dispatch "create_directory" [("path", D)] fs).2) ∧
      pathIsDir (dispatch "create_directory" [("path", D)] fs).2 D = true) ∧
    (∀ r c t, resolve fs D = some r → fs.find r = some (.file c t) →
      ∃ m, dispatch "create_directory" [("path", D)] fs =
        ([mkText ("Error: " ++ m)], fs)) := by
  have hp : getArg [("path", D)] "path" = some D := by simp [getArg]
  have hb := body_create_directory [("path", D)] fs D hp
  have hcurdir : isDirAt fs.entries (startDir fs D) = true := by
    unfold startDir
    split
    · exact WF_root fs hwf
    · exact WF_cwd fs hwf
  constructor
  · intro h
    cases hmk : mkdirWalk (pathStr D) fs (startDir fs D) (splitPath D) with
    | error ef =>
      exfalso
      obtain ⟨m, fsx⟩ := ef
      have hd := dispatch_eq_of_body_error _ _ _ m fsx (by rw [hb, hmk])
      rw [hd] at h
      simp only [mkText, List.cons.injEq, TextContent.mk.injEq, true_and, and_true] at h
      exact error_ne_created m (pathStr D) h
    | ok fs1 =>
      have hd := dispatch_eq_of_body_ok _ _ _ _ _ (show dispatchBody "create_directory"
        [("path", D)] fs =
          .ok ([mkText ("Successfully created directory: " ++ pathStr D)], fs1) by
        rw [hb, hmk])
      rw [hd]
      have hcwd : fs1.cwd = fs.cwd := mkdirWalk_cwd (pathStr D) (splitPath D) fs _ fs1 hmk
      have hstart : startDir fs1 D = startDir fs D := by
        unfold startDir
        rw [hcwd]
      obtain ⟨hwf1, hend, hres1⟩ :=
        mkdirWalk_ok_spec (pathStr D) (splitPath D) fs (startDir fs D) fs1 hwf hcurdir hmk
      constructor
      · have hmk2 : mkdirWalk (pathStr D) fs1 (startDir fs1 D) (splitPath D) = .ok fs1 := by
          rw [hstart]
          exact mkdirWalk_idem (pathStr D) (splitPath D) fs (startDir fs D) fs1 hmk
        have hb2 := body_create_directory [("path", D)] fs1 D hp
        exact dispatch_eq_of_body_ok _ _ _ _ _ (by rw [hb2, hmk2])
      · unfold pathIsDir statAt resolve
        rw [hstart, hres1]
        obtain ⟨t, ht⟩ := (isDirAt_find fs1 _).mp hend
        rw [show (some (canonEnd (startDir fs D) (splitPath D))).bind fs1.find =
          fs1.find (canonEnd (startDir fs D) (splitPath D)) from rfl, ht]
  · intro r c t hres hfile
    unfold resolve at hres
    obtain ⟨m, hmk⟩ := mkdirWalk_file_target (pathStr D) (splitPath D) fs (startDir fs D)
      r c t hwf hcurdir hres hfile
    exact ⟨m, dispatch_eq_of_body_error _ _ _ m fs (by rw [hb, hmk])⟩

/-- C6 witness: the theorem applied at the concrete fresh directory name
`newdir`: the repeated call returns the same confirmation and the
directory exists afterwards. -/
theorem C6_witness :
    dispatch "create_directory" [("path", "newdir")]
        (dispatch "create_directory" [("path", "newdir")] fs0).2 =
      ([mkText ("Successfully created directory: " ++ pathStr "newdir")],
        (dispatch "create_directory" [("path", "newdir")] fs0).2) ∧
    pathIsDir (dispatch "create_directory" [("path", "newdir")] fs0).2 "newdir" = true :=
  (C6_create_directory_idempotent fs0 "newdir" (by decide)).1 (by decide)

end MCPServer
